import Mathlib

/-!
Verification of the segment-alignment ("merge") component of MeetingMinds.

The embedding below translates the data model of `transcriber.py` /
`diarizer.py` and the `DiarizedTranscriptBuilder.merge` static method of
`diarizer.py` into Lean.  Timestamps (Python floats holding seconds) are
modelled as rationals `ℚ`, which carry the same linear-order comparisons
the code performs; texts and speaker labels are `String`s; Python lists
are Lean `List`s.
-/

namespace MeetingMinds

/-- `TranscriptSegment` from `transcriber.py`: a time-stamped text span. -/
structure TranscriptSegment where
  start : ℚ
  «end» : ℚ
  text : String
  deriving DecidableEq, Repr

/-- `Transcript` from `transcriber.py`: segments plus an independent full text. -/
structure Transcript where
  segments : List TranscriptSegment := []
  full_text : String := ""
  deriving DecidableEq, Repr

/-- `SpeakerSegment` from `diarizer.py`: a time-stamped speaker turn.
The optional `text` field is never populated by the diarization backend. -/
structure SpeakerSegment where
  start : ℚ
  «end» : ℚ
  speaker : String
  text : Option String := none
  deriving DecidableEq, Repr

/-- `DiarizationResult` from `diarizer.py`. -/
structure DiarizationResult where
  segments : List SpeakerSegment := []
  deriving DecidableEq, Repr

/-- `DiarizedSegment` from `diarizer.py`: the aligner's output unit. -/
structure DiarizedSegment where
  start : ℚ
  «end» : ℚ
  speaker : String
  text : String
  deriving DecidableEq, Repr

/-- `DiarizedTranscript` from `diarizer.py`. -/
structure DiarizedTranscript where
  segments : List DiarizedSegment := []
  full_text : String := ""
  deriving DecidableEq, Repr

namespace DiarizedTranscriptBuilder

/-- The inline time-overlap test of `merge` (diarizer.py lines 81-84):
`tseg.end > speaker_segment.start and tseg.start < speaker_segment.end`. -/
def timeOverlap (tseg : TranscriptSegment) (speaker_segment : SpeakerSegment) : Bool :=
  decide (tseg.«end» > speaker_segment.start) && decide (tseg.start < speaker_segment.«end»)

/-- The inner loop of `merge` (diarizer.py lines 78-86): the `texts` list
collected for one speaker segment, i.e. the texts of the transcript
segments that pass the overlap test, in transcript order. -/
def overlapTexts (segments : List TranscriptSegment) (speaker_segment : SpeakerSegment) :
    List String :=
  (segments.filter fun tseg => timeOverlap tseg speaker_segment).map
    fun tseg => tseg.text

/-- One iteration of the outer loop of `merge` (diarizer.py lines 76-95):
`if texts:` (Python truthiness = non-empty list) append a `DiarizedSegment`
whose fields are copied from the speaker segment and whose text is
`" ".join(texts)`; otherwise append nothing. -/
def processTurn (transcript : Transcript) (speaker_segment : SpeakerSegment) :
    Option DiarizedSegment :=
  let texts := overlapTexts transcript.segments speaker_segment
  if texts.isEmpty then none
  else some
    { start := speaker_segment.start
      «end» := speaker_segment.«end»
      speaker := speaker_segment.speaker
      text := String.intercalate " " texts }

/-- `DiarizedTranscriptBuilder.merge` (diarizer.py lines 72-97): align
transcript segments to diarization segments by time overlap, then carry
`full_text` through from the transcript. -/
def merge (transcript : Transcript) (diarization_result : DiarizationResult) :
    DiarizedTranscript :=
  { segments := diarization_result.segments.filterMap (processTurn transcript)
    full_text := transcript.full_text }

/-- The spec's overlap predicate, written from the spec's own words
(`end_t > start_s AND start_t < end_s`) as a proposition, to be compared
with the boolean test `timeOverlap` the code performs. -/
def specOverlap (t : TranscriptSegment) (sp : SpeakerSegment) : Prop :=
  t.«end» > sp.start ∧ t.start < sp.«end»

instance (t : TranscriptSegment) (sp : SpeakerSegment) : Decidable (specOverlap t sp) := by
  unfold specOverlap
  exact inferInstance

end DiarizedTranscriptBuilder

end MeetingMinds

section SanityChecks

open MeetingMinds DiarizedTranscriptBuilder

-- Example 1 of the spec: both transcript segments overlap the single turn.
example :
    (merge ⟨[⟨0, 2, "hello"⟩, ⟨2, 4, "world"⟩], "hello world"⟩
        ⟨[⟨0, 3, "A", none⟩]⟩).segments
      = [⟨0, 3, "A", "hello world"⟩] := by decide

-- Example 2 of the spec: boundary touch at t=1 is not an overlap.
example :
    (merge ⟨[⟨0, 1, "hi"⟩], "hi"⟩ ⟨[⟨1, 2, "B", none⟩]⟩).segments = [] := by decide

-- Example 4 of the spec: one long transcript segment duplicated into two turns.
example :
    (merge ⟨[⟨0, 10, "x"⟩], "x"⟩ ⟨[⟨0, 2, "A", none⟩, ⟨3, 5, "B", none⟩]⟩).segments
      = [⟨0, 2, "A", "x"⟩, ⟨3, 5, "B", "x"⟩] := by decide

end SanityChecks

namespace MeetingMinds

namespace DiarizedTranscriptBuilder

/-! ### Shared lemmas -/

/-- The boolean test of the code agrees with the spec's overlap predicate. -/
lemma timeOverlap_eq_true_iff (t : TranscriptSegment) (sp : SpeakerSegment) :
    timeOverlap t sp = true ↔ specOverlap t sp := by
  simp [timeOverlap, specOverlap, Bool.and_eq_true, decide_eq_true_eq]

lemma timeOverlap_eq_decide (t : TranscriptSegment) (sp : SpeakerSegment) :
    timeOverlap t sp = decide (specOverlap t sp) := by
  by_cases h : specOverlap t sp
  · rw [(timeOverlap_eq_true_iff t sp).mpr h, decide_eq_true h]
  · rw [decide_eq_false h]
    rcases hb : timeOverlap t sp with _ | _
    · rfl
    · exact absurd ((timeOverlap_eq_true_iff t sp).mp hb) h

/-- The texts collected for a turn are exactly the texts of the transcript
segments satisfying the spec's overlap predicate, in transcript order. -/
lemma overlapTexts_eq_spec (segs : List TranscriptSegment) (sp : SpeakerSegment) :
    overlapTexts segs sp
      = (segs.filter fun t => decide (specOverlap t sp)).map TranscriptSegment.text := by
  unfold overlapTexts
  exact congrArg (List.map fun tseg => tseg.text)
    (List.filter_congr fun t _ => timeOverlap_eq_decide t sp)

lemma mem_overlapTexts (t : TranscriptSegment) (segs : List TranscriptSegment)
    (sp : SpeakerSegment) (ht : t ∈ segs) (hov : specOverlap t sp) :
    t.text ∈ overlapTexts segs sp := by
  unfold overlapTexts
  exact List.mem_map.mpr
    ⟨t, List.mem_filter.mpr ⟨ht, (timeOverlap_eq_true_iff t sp).mpr hov⟩, rfl⟩

lemma overlapTexts_eq_nil_iff (segs : List TranscriptSegment) (sp : SpeakerSegment) :
    overlapTexts segs sp = [] ↔ ∀ t ∈ segs, ¬ specOverlap t sp := by
  unfold overlapTexts
  simp [List.filter_eq_nil_iff, timeOverlap_eq_true_iff]

lemma processTurn_eq_none_iff (tr : Transcript) (sp : SpeakerSegment) :
    processTurn tr sp = none ↔ overlapTexts tr.segments sp = [] := by
  by_cases h : (overlapTexts tr.segments sp).isEmpty
  · simp [processTurn, h, List.isEmpty_iff.mp h]
  · have h' : ¬ overlapTexts tr.segments sp = [] := fun h0 => h (List.isEmpty_iff.mpr h0)
    simp [processTurn, h, h']

lemma processTurn_of_ne_nil (tr : Transcript) (sp : SpeakerSegment)
    (h : overlapTexts tr.segments sp ≠ []) :
    processTurn tr sp
      = some ⟨sp.start, sp.«end», sp.speaker,
              String.intercalate " " (overlapTexts tr.segments sp)⟩ := by
  unfold processTurn
  rw [if_neg fun h0 => h (List.isEmpty_iff.mp h0)]

lemma processTurn_eq_some_iff (tr : Transcript) (sp : SpeakerSegment)
    (out : DiarizedSegment) :
    processTurn tr sp = some out ↔
      overlapTexts tr.segments sp ≠ [] ∧
      out = ⟨sp.start, sp.«end», sp.speaker,
             String.intercalate " " (overlapTexts tr.segments sp)⟩ := by
  by_cases h : overlapTexts tr.segments sp = []
  · rw [(processTurn_eq_none_iff tr sp).mpr h]
    simp [h]
  · rw [processTurn_of_ne_nil tr sp h]
    simp [h, eq_comm]

lemma processTurn_isSome_iff (tr : Transcript) (sp : SpeakerSegment) :
    (processTurn tr sp).isSome ↔ ∃ t ∈ tr.segments, specOverlap t sp := by
  rw [Option.isSome_iff_ne_none, Ne, processTurn_eq_none_iff, overlapTexts_eq_nil_iff]
  push_neg
  simp

lemma merge_segments_eq (tr : Transcript) (d : DiarizationResult) :
    (merge tr d).segments = d.segments.filterMap (processTurn tr) := rfl

/-- The output of `merge` is the input turn list, filtered to the turns with
at least one overlapping transcript segment and rewritten to output shape. -/
lemma filterMap_processTurn (tr : Transcript) :
    ∀ l : List SpeakerSegment,
      l.filterMap (processTurn tr)
        = (l.filter fun sp => decide (∃ t ∈ tr.segments, specOverlap t sp)).map
            fun sp => ⟨sp.start, sp.«end», sp.speaker,
                       String.intercalate " " (overlapTexts tr.segments sp)⟩
  | [] => rfl
  | sp :: l => by
    rw [List.filterMap_cons, List.filter_cons]
    by_cases h : ∃ t ∈ tr.segments, specOverlap t sp
    · have hne : overlapTexts tr.segments sp ≠ [] := by
        rw [Ne, overlapTexts_eq_nil_iff]
        push_neg
        simpa using h
      rw [processTurn_of_ne_nil tr sp hne]
      simp [h, filterMap_processTurn tr l]
    · have hnil : overlapTexts tr.segments sp = [] :=
        (overlapTexts_eq_nil_iff tr.segments sp).mpr (by simpa using h)
      rw [(processTurn_eq_none_iff tr sp).mpr hnil]
      simp [h, filterMap_processTurn tr l]

/-- A `filterMap` keeps the full length exactly when the function returns
`some` on every element. -/
lemma length_filterMap_eq_iff {α β : Type} (f : α → Option β) :
    ∀ l : List α, ((l.filterMap f).length = l.length ↔ ∀ a ∈ l, (f a).isSome)
  | [] => by simp
  | a :: l => by
    rw [List.filterMap_cons]
    cases h : f a with
    | none =>
      have hle := List.length_filterMap_le f l
      simp only [List.length_cons]
      constructor
      · intro hlen
        exact absurd hlen (by omega)
      · intro hall
        have := hall a (List.mem_cons_self a l)
        rw [h] at this
        simp at this
    | some b =>
      have IH := length_filterMap_eq_iff f l
      simp [h, IH, List.forall_mem_cons]

/-- A non-empty string has positive length. -/
lemma length_pos_of_ne_empty : ∀ s : String, s ≠ "" → 0 < s.length
  | ⟨[]⟩, h => absurd rfl h
  | ⟨_ :: _⟩, _ => Nat.succ_pos _

/-- The join accumulator is a prefix of the join, so its length bounds the
join's length from below. -/
lemma length_le_intercalate_go (sep : String) :
    ∀ (l : List String) (acc : String),
      acc.length ≤ (String.intercalate.go acc sep l).length
  | [], _ => Nat.le_refl _
  | a :: as, acc => by
    show acc.length ≤ (String.intercalate.go (acc ++ sep ++ a) sep as).length
    refine Nat.le_trans ?_ (length_le_intercalate_go sep as (acc ++ sep ++ a))
    simp only [String.length_append]
    omega

/-- Joining a list whose head is a non-empty string yields a non-empty string. -/
lemma intercalate_cons_ne_empty (x : String) (xs : List String) (hx : x ≠ "") :
    String.intercalate " " (x :: xs) ≠ "" := by
  intro h0
  have h1 : x.length ≤ (String.intercalate " " (x :: xs)).length :=
    length_le_intercalate_go " " xs x
  rw [h0] at h1
  have h2 := length_pos_of_ne_empty x hx
  have h3 : ("" : String).length = 0 := rfl
  omega

/-! ### Claim theorems -/

/-- C1: a transcript segment's text is collected for a speaker turn exactly
when the intervals satisfy `end_t > start_s AND start_t < end_s`: the text
`merge` emits for a turn is the space-join of the texts of precisely the
spec-overlapping transcript segments, every spec-overlapping segment's text
is collected, and a segment that merely touches a boundary never
spec-overlaps and so contributes nothing. -/
theorem overlap_correctness (tr : Transcript) (sp : SpeakerSegment) :
    (∀ out : DiarizedSegment, processTurn tr sp = some out →
        out.text = String.intercalate " "
          ((tr.segments.filter fun t => decide (specOverlap t sp)).map
            TranscriptSegment.text))
    ∧ (∀ t ∈ tr.segments, specOverlap t sp → t.text ∈ overlapTexts tr.segments sp)
    ∧ ∀ t : TranscriptSegment, t.«end» = sp.start ∨ t.start = sp.«end» →
        ¬ specOverlap t sp := by
  refine ⟨?_, ?_, ?_⟩
  · intro out hout
    rcases (processTurn_eq_some_iff tr sp out).mp hout with ⟨-, hval⟩
    rw [hval]
    show String.intercalate " " (overlapTexts tr.segments sp)
        = String.intercalate " "
            ((tr.segments.filter fun t => decide (specOverlap t sp)).map
              TranscriptSegment.text)
    exact congrArg (String.intercalate " ") (overlapTexts_eq_spec tr.segments sp)
  · exact fun t ht hov => mem_overlapTexts t tr.segments sp ht hov
  · rintro t (h | h) hov
    · have hab : t.«end» > sp.start ∧ t.start < sp.«end» := hov
      rw [h] at hab
      exact lt_irrefl _ hab.1
    · have hab : t.«end» > sp.start ∧ t.start < sp.«end» := hov
      rw [h] at hab
      exact lt_irrefl _ hab.2

/-- Witness for C1: instantiated on the spec's Example 1 (both transcript
segments overlap the single turn) and Example 2 (a boundary touch is not
an overlap). -/
theorem overlap_correctness_witness :
    (⟨0, 3, "A", "hello world"⟩ : DiarizedSegment).text
        = String.intercalate " "
            ((([⟨0, 2, "hello"⟩, ⟨2, 4, "world"⟩] : List TranscriptSegment).filter
                fun t => decide (specOverlap t ⟨0, 3, "A", none⟩)).map
              TranscriptSegment.text)
    ∧ ¬ specOverlap ⟨0, 1, "hi"⟩ ⟨1, 2, "B", none⟩ :=
  ⟨(overlap_correctness ⟨[⟨0, 2, "hello"⟩, ⟨2, 4, "world"⟩], "hw"⟩
        ⟨0, 3, "A", none⟩).1 ⟨0, 3, "A", "hello world"⟩ (by decide),
   (overlap_correctness ⟨[⟨0, 1, "hi"⟩], "hi"⟩ ⟨1, 2, "B", none⟩).2.2
      ⟨0, 1, "hi"⟩ (Or.inl rfl)⟩

/-- C2: evaluation at the failing input.  With a malformed transcript
segment (`start = 5 > 1 = end`), `merge` does not fail: it has no
validation and no exception path, silently applies the overlap test to the
malformed interval, and returns a full result. -/
theorem merge_accepts_malformed_input :
    merge ⟨[⟨5, 1, "x"⟩], "x"⟩ ⟨[⟨0, 10, "A", none⟩]⟩
      = ⟨[⟨0, 10, "A", "x"⟩], "x"⟩ := by decide

/-- Counterexample to C3: an overlapping transcript segment whose text is
the empty string makes `merge` emit a `DiarizedSegment` with empty text. -/
theorem empty_text_counterexample :
    (merge ⟨[⟨0, 2, ""⟩], "full"⟩ ⟨[⟨0, 2, "A", none⟩]⟩).segments
        = [⟨0, 2, "A", ""⟩]
    ∧ (⟨0, 2, "A", ""⟩ : DiarizedSegment).text = "" := by decide

/-- C3 as amended: every `DiarizedSegment` that `merge` emits comes from a
speaker turn with at least one overlapping transcript segment, and its text
is the space-join of the texts collected for that turn (which is the empty
string only when an overlapping transcript segment has empty text). -/
theorem merge_emits_only_overlapping (tr : Transcript) (d : DiarizationResult) :
    ∀ out ∈ (merge tr d).segments, ∃ sp ∈ d.segments, ∃ t ∈ tr.segments,
      timeOverlap t sp = true ∧
      out.text = String.intercalate " " (overlapTexts tr.segments sp) := by
  intro out hout
  rw [merge_segments_eq] at hout
  rcases List.mem_filterMap.mp hout with ⟨sp, hsp, hpt⟩
  rcases (processTurn_eq_some_iff tr sp out).mp hpt with ⟨hne, hval⟩
  rcases List.exists_cons_of_ne_nil hne with ⟨x, xs, hx⟩
  have hxmem : x ∈ overlapTexts tr.segments sp := by
    rw [hx]
    exact List.mem_cons_self x xs
  unfold overlapTexts at hxmem
  rcases List.mem_map.mp hxmem with ⟨t, htf, hxt⟩
  rcases List.mem_filter.mp htf with ⟨htmem, htov⟩
  exact ⟨sp, hsp, t, htmem, htov, by rw [hval]⟩

/-- Witness for C3 as amended, at the spec's Example 1. -/
theorem merge_emits_only_overlapping_witness :
    ∃ sp ∈ ([⟨0, 3, "A", none⟩] : List SpeakerSegment),
      ∃ t ∈ ([⟨0, 2, "hello"⟩, ⟨2, 4, "world"⟩] : List TranscriptSegment),
        timeOverlap t sp = true ∧
        (⟨0, 3, "A", "hello world"⟩ : DiarizedSegment).text
          = String.intercalate " " (overlapTexts [⟨0, 2, "hello"⟩, ⟨2, 4, "world"⟩] sp) :=
  merge_emits_only_overlapping ⟨[⟨0, 2, "hello"⟩, ⟨2, 4, "world"⟩], "hw"⟩
    ⟨[⟨0, 3, "A", none⟩]⟩ ⟨0, 3, "A", "hello world"⟩ (by decide)

/-- Counterexample to C4: a zero-length transcript segment lying strictly
inside a speaker turn does overlap it, and `merge` attributes its text. -/
theorem zero_length_overlap_counterexample :
    timeOverlap ⟨1, 1, "x"⟩ ⟨0, 2, "A", none⟩ = true
    ∧ (merge ⟨[⟨1, 1, "x"⟩], "x"⟩ ⟨[⟨0, 2, "A", none⟩]⟩).segments
        = [⟨0, 2, "A", "x"⟩] := by decide

/-- C4 as amended: a zero-length transcript segment overlaps a turn exactly
when its instant lies strictly inside the turn's interval, a zero-length
turn overlaps a transcript segment exactly when its instant lies strictly
inside the segment's interval, and two zero-length intervals never overlap,
including at the same instant. -/
theorem zero_length_overlap_characterization (t : TranscriptSegment)
    (sp : SpeakerSegment) :
    (t.start = t.«end» →
        (timeOverlap t sp = true ↔ sp.start < t.start ∧ t.start < sp.«end»))
    ∧ (sp.start = sp.«end» →
        (timeOverlap t sp = true ↔ t.start < sp.start ∧ sp.start < t.«end»))
    ∧ (t.start = t.«end» → sp.start = sp.«end» → timeOverlap t sp = false) := by
  refine ⟨?_, ?_, ?_⟩
  · intro h
    rw [timeOverlap_eq_true_iff]
    unfold specOverlap
    rw [← h]
  · intro h
    rw [timeOverlap_eq_true_iff]
    unfold specOverlap
    rw [← h]
    exact and_comm
  · intro h1 h2
    rcases hb : timeOverlap t sp with _ | _
    · rfl
    · exfalso
      have hab : t.«end» > sp.start ∧ t.start < sp.«end» :=
        (timeOverlap_eq_true_iff t sp).mp hb
      rw [← h1] at hab
      rw [← h2] at hab
      linarith [hab.1, hab.2]

/-- Witness for C4 as amended: two zero-length intervals at the same
instant do not overlap. -/
theorem zero_length_overlap_witness :
    timeOverlap ⟨1, 1, "x"⟩ ⟨1, 1, "A", none⟩ = false :=
  (zero_length_overlap_characterization ⟨1, 1, "x"⟩ ⟨1, 1, "A", none⟩).2.2 rfl rfl

/-- C5: the output `full_text` is exactly the input transcript's
`full_text`, for every input pair. -/
theorem full_text_passthrough (tr : Transcript) (d : DiarizationResult) :
    (merge tr d).full_text = tr.full_text := rfl

/-- C6: the output segment list is the input speaker-turn list, in its
given order, restricted to the turns with at least one overlapping
transcript segment and rewritten to output shape — no re-sorting. -/
theorem order_preservation (tr : Transcript) (d : DiarizationResult) :
    (merge tr d).segments
      = (d.segments.filter fun sp => decide (∃ t ∈ tr.segments, specOverlap t sp)).map
          fun sp => ⟨sp.start, sp.«end», sp.speaker,
                     String.intercalate " " (overlapTexts tr.segments sp)⟩ :=
  filterMap_processTurn tr d.segments

/-- C7: a speaker turn with at least one overlapping transcript segment
yields an output segment whose `start`, `end` and `speaker` are copied
verbatim from the turn and whose text is the space-join of the full texts
of exactly the spec-overlapping transcript segments, in transcript order. -/
theorem verbatim_turn_attribution (tr : Transcript) (d : DiarizationResult)
    (sp : SpeakerSegment) (hsp : sp ∈ d.segments)
    (hov : ∃ t ∈ tr.segments, specOverlap t sp) :
    (⟨sp.start, sp.«end», sp.speaker,
      String.intercalate " "
        ((tr.segments.filter fun t => decide (specOverlap t sp)).map
          TranscriptSegment.text)⟩ : DiarizedSegment) ∈ (merge tr d).segments := by
  have hne : overlapTexts tr.segments sp ≠ [] := by
    rw [Ne, overlapTexts_eq_nil_iff]
    push_neg
    simpa using hov
  have hpt := processTurn_of_ne_nil tr sp hne
  rw [merge_segments_eq]
  refine List.mem_filterMap.mpr ⟨sp, hsp, ?_⟩
  rw [hpt, overlapTexts_eq_spec]

/-- Witness for C7, at the spec's Example 1. -/
theorem verbatim_turn_attribution_witness :
    (⟨0, 3, "A",
      String.intercalate " "
        ((([⟨0, 2, "hello"⟩, ⟨2, 4, "world"⟩] : List TranscriptSegment).filter
            fun t => decide (specOverlap t ⟨0, 3, "A", none⟩)).map
          TranscriptSegment.text)⟩ : DiarizedSegment)
      ∈ (merge ⟨[⟨0, 2, "hello"⟩, ⟨2, 4, "world"⟩], "hello world"⟩
          ⟨[⟨0, 3, "A", none⟩]⟩).segments :=
  verbatim_turn_attribution ⟨[⟨0, 2, "hello"⟩, ⟨2, 4, "world"⟩], "hello world"⟩
    ⟨[⟨0, 3, "A", none⟩]⟩ ⟨0, 3, "A", none⟩ (by decide)
    ⟨⟨0, 2, "hello"⟩, by decide, by decide⟩

/-- C8: a turn with no overlapping transcript segment contributes nothing,
the output length never exceeds the number of turns, equality holds exactly
when every turn has an overlapping segment, and an empty transcript or an
empty diarization yields an empty output segment list. -/
theorem drop_and_count (tr : Transcript) (d : DiarizationResult) :
    (∀ sp ∈ d.segments, (∀ t ∈ tr.segments, ¬ specOverlap t sp) →
        processTurn tr sp = none)
    ∧ (merge tr d).segments.length ≤ d.segments.length
    ∧ ((merge tr d).segments.length = d.segments.length ↔
        ∀ sp ∈ d.segments, ∃ t ∈ tr.segments, specOverlap t sp)
    ∧ (tr.segments = [] → (merge tr d).segments = [])
    ∧ (d.segments = [] → (merge tr d).segments = []) := by
  refine ⟨?_, ?_, ?_, ?_, ?_⟩
  · intro sp _ hnone
    exact (processTurn_eq_none_iff tr sp).mpr
      ((overlapTexts_eq_nil_iff tr.segments sp).mpr hnone)
  · rw [merge_segments_eq]
    exact List.length_filterMap_le (processTurn tr) d.segments
  · rw [merge_segments_eq, length_filterMap_eq_iff (processTurn tr) d.segments]
    exact forall_congr' fun sp => imp_congr_right fun _ => processTurn_isSome_iff tr sp
  · intro h
    rw [merge_segments_eq]
    refine List.filterMap_eq_nil_iff.mpr fun sp _ => ?_
    rw [processTurn_eq_none_iff, h]
    rfl
  · intro h
    rw [merge_segments_eq, h]
    rfl

/-- Witness for C8: an empty transcript drops every speaker turn. -/
theorem drop_and_count_witness :
    (merge ⟨[], "f"⟩ ⟨[⟨0, 1, "A", none⟩]⟩).segments = [] :=
  (drop_and_count ⟨[], "f"⟩ ⟨[⟨0, 1, "A", none⟩]⟩).2.2.2.1 rfl

/-- C9: `merge` is total — for every input pair, malformed segments
included, it returns a `DiarizedTranscript` whose `full_text` is the
transcript's and whose every segment arises from a turn by the same
overlap rule; the embedding, like the code, has no exception path. -/
theorem merge_total_on_all_inputs (tr : Transcript) (d : DiarizationResult) :
    (merge tr d).full_text = tr.full_text
    ∧ ∀ out ∈ (merge tr d).segments, ∃ sp ∈ d.segments,
        overlapTexts tr.segments sp ≠ [] ∧
        out = ⟨sp.start, sp.«end», sp.speaker,
               String.intercalate " " (overlapTexts tr.segments sp)⟩ := by
  refine ⟨rfl, ?_⟩
  intro out hout
  rw [merge_segments_eq] at hout
  rcases List.mem_filterMap.mp hout with ⟨sp, hsp, hpt⟩
  rcases (processTurn_eq_some_iff tr sp out).mp hpt with ⟨hne, hval⟩
  exact ⟨sp, hsp, hne, hval⟩

/-- Witness for C9, at a malformed input (`start = 5 > 1 = end`): the same
overlap rule is silently applied. -/
theorem merge_total_on_all_inputs_witness :
    ∃ sp ∈ ([⟨0, 10, "A", none⟩] : List SpeakerSegment),
      overlapTexts [⟨5, 1, "x"⟩] sp ≠ [] ∧
      (⟨0, 10, "A", "x"⟩ : DiarizedSegment)
        = ⟨sp.start, sp.«end», sp.speaker,
           String.intercalate " " (overlapTexts [⟨5, 1, "x"⟩] sp)⟩ :=
  (merge_total_on_all_inputs ⟨[⟨5, 1, "x"⟩], "x"⟩ ⟨[⟨0, 10, "A", none⟩]⟩).2
    ⟨0, 10, "A", "x"⟩ (by decide)

/-- C10: if every transcript segment has non-empty text then every output
segment of `merge` has non-empty text. -/
theorem merge_text_nonempty (tr : Transcript) (d : DiarizationResult)
    (h : ∀ t ∈ tr.segments, t.text ≠ "") :
    ∀ out ∈ (merge tr d).segments, out.text ≠ "" := by
  intro out hout
  rw [merge_segments_eq] at hout
  rcases List.mem_filterMap.mp hout with ⟨sp, _, hpt⟩
  rcases (processTurn_eq_some_iff tr sp out).mp hpt with ⟨hne, hval⟩
  rcases List.exists_cons_of_ne_nil hne with ⟨x, xs, hx⟩
  have hxmem : x ∈ overlapTexts tr.segments sp := by
    rw [hx]
    exact List.mem_cons_self x xs
  have hxorigin : ∃ t ∈ tr.segments, t.text = x := by
    unfold overlapTexts at hxmem
    rcases List.mem_map.mp hxmem with ⟨t, htf, hxt⟩
    exact ⟨t, (List.mem_filter.mp htf).1, hxt⟩
  rcases hxorigin with ⟨t, htmem, hxt⟩
  have hxne : x ≠ "" := hxt ▸ h t htmem
  rw [hval]
  show String.intercalate " " (overlapTexts tr.segments sp) ≠ ""
  rw [hx]
  exact intercalate_cons_ne_empty x xs hxne

/-- Witness for C10, at the spec's Example 1. -/
theorem merge_text_nonempty_witness :
    (⟨0, 3, "A", "hello world"⟩ : DiarizedSegment).text ≠ "" :=
  merge_text_nonempty ⟨[⟨0, 2, "hello"⟩, ⟨2, 4, "world"⟩], "hello world"⟩
    ⟨[⟨0, 3, "A", none⟩]⟩ (by decide) ⟨0, 3, "A", "hello world"⟩ (by decide)

end DiarizedTranscriptBuilder

end MeetingMinds
